import Mathlib

/-!
Verification of the kolaba sync engine (src/main.ts) against its
natural-language specification.  The TypeScript reconciliation, push and
hashing routines are shallowly embedded as executable Lean definitions;
JavaScript strings are modelled as Lean strings (lists of characters),
JavaScript number arithmetic on indices and counts is on Nat, and the
remote service / local vault are explicit parameters.
-/

set_option maxRecDepth 20000

namespace Kolaba

/- ## JavaScript string primitives used by the source -/

/-- Model of JavaScript charwise lowercasing, adequate for ASCII paths
(the source uses String.prototype.toLowerCase on vault paths). -/
def toLowerStr (s : String) : String :=
  String.mk (s.toList.map Char.toLower)

/-- Model of s.split(c) for a single-character separator, with the
JavaScript convention that the empty string splits to one empty field. -/
def splitChar (c : Char) : List Char → List (List Char)
  | [] => [[]]
  | x :: xs =>
    let rest := splitChar c xs
    if x = c then [] :: rest
    else
      match rest with
      | [] => [[x]]
      | r :: rs => (x :: r) :: rs

/-- content.split(String.fromCharCode 10), as used for line counting. -/
def splitLinesJs (s : String) : List String :=
  (splitChar (Char.ofNat 10) s.toList).map String.mk

/-- First stage of line-ending normalization: replace CRLF by LF
(global leftmost non-overlapping replacement, as the regex does). -/
def stripCRLF : List Char → List Char
  | [] => []
  | [c] => [c]
  | x :: y :: rest =>
    if x = Char.ofNat 13 ∧ y = Char.ofNat 10 then Char.ofNat 10 :: stripCRLF rest
    else x :: stripCRLF (y :: rest)

/-- content.replace(CRLF, LF).replace(CR, LF): the line-ending
normalization applied before every content comparison. -/
def normalizeEOL (s : String) : String :=
  String.mk ((stripCRLF s.toList).map (fun c => if c = Char.ofNat 13 then Char.ofNat 10 else c))

/-- Model of s.endsWith(suffix). -/
def strEndsWith (s sfx : String) : Bool :=
  let ls := s.toList
  let lx := sfx.toList
  (Nat.ble lx.length ls.length) && (ls.drop (ls.length - lx.length) == lx)

/-- The ECMAScript whitespace characters relevant to String.prototype.trim. -/
def isJsWhitespace (c : Char) : Bool :=
  c == Char.ofNat 32 || c == Char.ofNat 9 || c == Char.ofNat 10 ||
  c == Char.ofNat 13 || c == Char.ofNat 11 || c == Char.ofNat 12 ||
  c == Char.ofNat 0xa0 || c == Char.ofNat 0xfeff || c == Char.ofNat 0x2028 ||
  c == Char.ofNat 0x2029 || c == Char.ofNat 0x3000

/-- Model of s.trim(). -/
def jsTrim (s : String) : String :=
  String.mk ((((s.toList.dropWhile isJsWhitespace).reverse).dropWhile isJsWhitespace).reverse)

/-- Number of UTF-16 code units of a string: the value of the JavaScript
length property. -/
def jsStrLength (s : String) : Nat :=
  s.toList.foldl (fun a c => a + (if c.toNat < 0x10000 then 1 else 2)) 0

/-- UTF-8 encoding of one character, as produced by TextEncoder. -/
def utf8Char (c : Char) : List Nat :=
  let n := c.toNat
  if n < 0x80 then [n]
  else if n < 0x800 then
    [0xC0 ||| (n >>> 6), 0x80 ||| (n &&& 0x3F)]
  else if n < 0x10000 then
    [0xE0 ||| (n >>> 12), 0x80 ||| ((n >>> 6) &&& 0x3F), 0x80 ||| (n &&& 0x3F)]
  else
    [0xF0 ||| (n >>> 18), 0x80 ||| ((n >>> 12) &&& 0x3F),
     0x80 ||| ((n >>> 6) &&& 0x3F), 0x80 ||| (n &&& 0x3F)]

/-- TextEncoder().encode(s): the UTF-8 bytes of a string. -/
def utf8Bytes (s : String) : List Nat :=
  s.toList.flatMap utf8Char

/- ## SHA-1 (the digest used by crypto.subtle.digest and by Git blobs) -/

/-- 32-bit left rotation on Nat with explicit truncation. -/
def rotl (s n : Nat) : Nat :=
  ((n <<< s) ||| (n >>> (32 - s))) % 4294967296

/-- Big-endian byte rendering of a number on k bytes. -/
def beBytes (k n : Nat) : List Nat :=
  (List.range k).map (fun i => (n >>> (8 * (k - 1 - i))) &&& 0xFF)

/-- SHA-1 message padding: 0x80, zeros, then the 64-bit bit length. -/
def sha1pad (msg : List Nat) : List Nat :=
  let len := msg.length
  let r := (len + 1) % 64
  let z := (120 - r) % 64
  msg ++ 0x80 :: (List.replicate z 0 ++ beBytes 8 (len * 8))

/-- Group bytes into big-endian 32-bit words. -/
def toWords : List Nat → List Nat
  | a :: b :: c :: d :: rest => (((a * 256 + b) * 256 + c) * 256 + d) :: toWords rest
  | _ => []

/-- Split into 64-byte blocks; fuel-driven so the kernel can evaluate it. -/
def chunks64 : Nat → List Nat → List (List Nat)
  | 0, _ => []
  | _ + 1, [] => []
  | fuel + 1, l => l.take 64 :: chunks64 fuel (l.drop 64)

/-- Extend the 16 schedule words by k further words. -/
def sha1extend : List Nat → Nat → List Nat
  | ws, 0 => ws
  | ws, k + 1 =>
    let n := ws.length
    let w := rotl 1 ((((ws.getD (n - 3) 0) ^^^ (ws.getD (n - 8) 0)) ^^^
                      (ws.getD (n - 14) 0)) ^^^ (ws.getD (n - 16) 0))
    sha1extend (ws ++ [w]) k

/-- The SHA-1 round logical function. -/
def sha1f (i b c d : Nat) : Nat :=
  if i < 20 then (b &&& c) ||| ((b ^^^ 4294967295) &&& d)
  else if i < 40 then (b ^^^ c) ^^^ d
  else if i < 60 then ((b &&& c) ||| (b &&& d)) ||| (c &&& d)
  else (b ^^^ c) ^^^ d

/-- The SHA-1 round constants. -/
def sha1k (i : Nat) : Nat :=
  if i < 20 then 0x5A827999
  else if i < 40 then 0x6ED9EBA1
  else if i < 60 then 0x8F1BBCDC
  else 0xCA62C1D6

/-- One SHA-1 round on the five-word state. -/
def sha1round (st : Nat × Nat × Nat × Nat × Nat) (iw : Nat × Nat) :
    Nat × Nat × Nat × Nat × Nat :=
  match st, iw with
  | (a, b, c, d, e), (i, w) =>
    let temp := ((rotl 5 a) + sha1f i b c d + e + sha1k i + w) % 4294967296
    (temp, a, rotl 30 b, c, d)

/-- Compress one 64-byte block into the running hash state. -/
def sha1processBlock (h : Nat × Nat × Nat × Nat × Nat) (block : List Nat) :
    Nat × Nat × Nat × Nat × Nat :=
  match h with
  | (h0, h1, h2, h3, h4) =>
    let ws := sha1extend (toWords block) 64
    let st := ((List.range 80).zip ws).foldl sha1round (h0, h1, h2, h3, h4)
    match st with
    | (a, b, c, d, e) =>
      ((h0 + a) % 4294967296, (h1 + b) % 4294967296, (h2 + c) % 4294967296,
       (h3 + d) % 4294967296, (h4 + e) % 4294967296)

/-- SHA-1 of a byte sequence, as a list of 20 bytes. -/
def sha1 (msg : List Nat) : List Nat :=
  let padded := sha1pad msg
  let blocks := chunks64 padded.length padded
  match blocks.foldl sha1processBlock
      (0x67452301, 0xEFCDAB89, 0x98BADCFE, 0x10325476, 0xC3D2E1F0) with
  | (h0, h1, h2, h3, h4) =>
    beBytes 4 h0 ++ beBytes 4 h1 ++ beBytes 4 h2 ++ beBytes 4 h3 ++ beBytes 4 h4

/-- Lowercase hexadecimal digit. -/
def hexDigit (n : Nat) : Char :=
  if n < 10 then Char.ofNat (48 + n) else Char.ofNat (87 + n)

/-- b.toString(16).padStart(2, zero) for a byte value. -/
def byteHex (b : Nat) : List Char :=
  [hexDigit (b / 16), hexDigit (b % 16)]

/-- Render digest bytes as a lowercase hex string. -/
def hashHex (bytes : List Nat) : String :=
  String.mk (bytes.flatMap byteHex)

/-- Embedding of calculateContentHash (src/main.ts lines 1634 to 1648).
The header uses content.length, the count of UTF-16 code units, while the
message is then encoded to UTF-8 bytes before digesting. -/
def calculateContentHash (content : String) : String :=
  let header := "blob " ++ Nat.repr (jsStrLength content) ++ String.mk [Char.ofNat 0]
  hashHex (sha1 (utf8Bytes (header ++ content)))

/-- Modelled from the spec: the remote object store canonical blob hash,
hash of "blob " plus the byte length of the UTF-8 encoded content, a NUL,
and the content itself (section 4.1).  Used to compare against the code
level calculateContentHash. -/
def gitBlobHash (content : String) : String :=
  let header := "blob " ++ Nat.repr (utf8Bytes content).length ++ String.mk [Char.ofNat 0]
  hashHex (sha1 (utf8Bytes (header ++ content)))

/- ## Data model -/

/-- A file of the local vault: path and current content.  Models the
Obsidian vault consumed through read and getAbstractFileByPath. -/
structure LocalFile where
  path : String
  content : String
deriving DecidableEq, Repr

/-- One entry of the remote tree snapshot: blob sha plus optionally
fetched content (the content field of the map built by fetchRemoteTree,
which may be undefined). -/
structure RemoteFile where
  sha : String
  content : Option String
deriving DecidableEq, Repr

/-- One record returned by getGitChangedFiles: path and git status
letter (A, M or D). -/
structure GitChange where
  file : String
  status : String
deriving DecidableEq, Repr

/-- The Sync Diff record pushed into the diffs array by fetchDiffs and
checkForRemoteChanges.  Fields that some push sites omit (remoteSha,
matchType, localPath) are Options, none meaning the field is absent. -/
structure SyncDiff where
  filename : String
  status : String
  additions : Nat
  deletions : Nat
  localContent : String
  remoteContent : String
  sha : String
  remoteSha : Option String
  matchType : Option String
  localPath : Option String
deriving DecidableEq, Repr

/-- o || emptyString : the JavaScript defaulting applied to the possibly
undefined remote content field. -/
def jsOrEmpty (o : Option String) : String := o.getD ""

/- ## Vault and tree lookups -/

/-- vault.getAbstractFileByPath: exact, case-sensitive lookup. -/
def getAbstractFileByPath (vault : List LocalFile) (p : String) : Option LocalFile :=
  vault.find? (fun f => f.path == p)

/-- The localFilesExact map of checkForRemoteChanges: built by Map.set
over all loaded files, so a later file with the same path overwrites an
earlier one. -/
def exactLookup (vault : List LocalFile) (p : String) : Option LocalFile :=
  vault.reverse.find? (fun f => f.path == p)

/-- The localFilesCaseInsensitive map of checkForRemoteChanges: keyed by
lowercased path, later entries overwriting earlier ones. -/
def ciLookup (vault : List LocalFile) (p : String) : Option LocalFile :=
  vault.reverse.find? (fun f => toLowerStr f.path == toLowerStr p)

/-- remoteTree.get on the snapshot map (keys are unique in a git tree). -/
def treeGet (tree : List (String × RemoteFile)) (p : String) : Option RemoteFile :=
  (tree.find? (fun e => e.1 == p)).map (·.2)

/- ## Line-count heuristics -/

/-- Embedding of the count loop of fetchDiffs (src/main.ts lines 1334 to
1349): positions past the remote length count as additions, positions
past the local length as deletions, differing shared positions as
additions. -/
def fetchDiffsCounts (localLines remoteLines : List String) : Nat × Nat :=
  (List.range (max localLines.length remoteLines.length)).foldl
    (fun ad i =>
      let localLine := localLines.getD i ""
      let remoteLine := remoteLines.getD i ""
      if remoteLines.length ≤ i then (ad.1 + 1, ad.2)
      else if localLines.length ≤ i then (ad.1, ad.2 + 1)
      else if localLine ≠ remoteLine then (ad.1 + 1, ad.2)
      else ad)
    (0, 0)

/-- Embedding of the count loop of checkForRemoteChanges (src/main.ts
lines 1458 to 1473): positions past the local length count as additions,
positions past the remote length as deletions, differing shared
positions as additions. -/
def checkForRemoteChangesCounts (localLines remoteLines : List String) : Nat × Nat :=
  (List.range (max localLines.length remoteLines.length)).foldl
    (fun ad i =>
      let localLine := localLines.getD i ""
      let remoteLine := remoteLines.getD i ""
      if localLines.length ≤ i then (ad.1 + 1, ad.2)
      else if remoteLines.length ≤ i then (ad.1, ad.2 + 1)
      else if localLine ≠ remoteLine then (ad.1 + 1, ad.2)
      else ad)
    (0, 0)

/-- Modelled from the spec, section 4.4.1: align both texts by line index
up to the longer length; an index beyond the remote length is an
addition, an index beyond the local length is a deletion, and a
differing line at a shared index is counted as an addition. -/
def specLineCounts (localLines remoteLines : List String) : Nat × Nat :=
  (List.range (max localLines.length remoteLines.length)).foldl
    (fun ad i =>
      if remoteLines.length ≤ i then (ad.1 + 1, ad.2)
      else if localLines.length ≤ i then (ad.1, ad.2 + 1)
      else if localLines.getD i "" ≠ remoteLines.getD i "" then (ad.1 + 1, ad.2)
      else ad)
    (0, 0)

/- ## Pass A: locally flagged paths (the loop of fetchDiffs) -/

/-- Embedding of one iteration of the git-change loop of fetchDiffs
(src/main.ts lines 1260 to 1372).  Each iteration pushes at most one
diff; continue branches return the empty list. -/
def processGitChange (vault : List LocalFile) (remoteTree : List (String × RemoteFile))
    (gc : GitChange) : List SyncDiff :=
  let filePath := gc.file
  if ¬ strEndsWith filePath ".md" then []
  else if gc.status = "D" then
    match treeGet remoteTree filePath with
    | some remoteFile =>
      match remoteFile.content with
      | some rc =>
        [{ filename := filePath, status := "remote-only", additions := 0,
           deletions := (splitLinesJs rc).length, localContent := "",
           remoteContent := rc, sha := remoteFile.sha,
           remoteSha := some remoteFile.sha, matchType := none, localPath := none }]
      | none => []
    | none => []
  else
    match getAbstractFileByPath vault filePath with
    | none => []
    | some localFile =>
      let localContent := localFile.content
      match treeGet remoteTree filePath with
      | none =>
        [{ filename := filePath, status := "added",
           additions := (splitLinesJs localContent).length, deletions := 0,
           localContent := localContent, remoteContent := "", sha := "",
           remoteSha := none, matchType := none, localPath := none }]
      | some remoteFile =>
        if calculateContentHash localContent = remoteFile.sha then []
        else
          let remoteContent := jsOrEmpty remoteFile.content
          let normalizedLocal := normalizeEOL localContent
          let normalizedRemote := normalizeEOL remoteContent
          if normalizedLocal = normalizedRemote then []
          else
            let counts := fetchDiffsCounts (splitLinesJs normalizedLocal)
                            (splitLinesJs normalizedRemote)
            if 0 < counts.1 ∨ 0 < counts.2 then
              [{ filename := filePath, status := "modified", additions := counts.1,
                 deletions := counts.2, localContent := localContent,
                 remoteContent := remoteContent, sha := remoteFile.sha,
                 remoteSha := some remoteFile.sha, matchType := none, localPath := none }]
            else []

/- ## Pass B: background remote sweep (checkForRemoteChanges) -/

/-- The local-match strategy of checkForRemoteChanges (src/main.ts lines
1407 to 1420): exact match first, then a case-insensitive match that is
retained only when its path differs from the remote path. -/
def resolveLocalMatch (vault : List LocalFile) (remotePath : String) :
    Option (LocalFile × String) :=
  match exactLookup vault remotePath with
  | some f => some (f, "exact")
  | none =>
    match ciLookup vault remotePath with
    | some f => if f.path ≠ remotePath then some (f, "case-conflict") else none
    | none => none

/-- Embedding of one iteration of the remote-tree loop of
checkForRemoteChanges (src/main.ts lines 1396 to 1524). -/
def processRemoteEntry (vault : List LocalFile) (gitChangedFiles : List String)
    (entry : String × RemoteFile) : List SyncDiff :=
  let remotePath := entry.1
  let remoteFile := entry.2
  if gitChangedFiles.contains remotePath then []
  else if ¬ strEndsWith remotePath ".md" then []
  else
    match resolveLocalMatch vault remotePath with
    | none =>
      let remoteContent := jsOrEmpty remoteFile.content
      [{ filename := remotePath, status := "remote-only", additions := 0,
         deletions := (splitLinesJs remoteContent).length, localContent := "",
         remoteContent := remoteContent, sha := "", remoteSha := some remoteFile.sha,
         matchType := some "none", localPath := none }]
    | some (localFile, matchType) =>
      let localContent := localFile.content
      if calculateContentHash localContent ≠ remoteFile.sha then
        let remoteContent := jsOrEmpty remoteFile.content
        let normalizedLocal := normalizeEOL localContent
        let normalizedRemote := normalizeEOL remoteContent
        if normalizedLocal ≠ normalizedRemote then
          let counts := checkForRemoteChangesCounts (splitLinesJs normalizedLocal)
                          (splitLinesJs normalizedRemote)
          if 0 < counts.1 ∨ 0 < counts.2 then
            [{ filename := remotePath, status := "remote-modified",
               additions := counts.1, deletions := counts.2,
               localContent := localContent, remoteContent := remoteContent,
               sha := "", remoteSha := some remoteFile.sha,
               matchType := some matchType, localPath := some localFile.path }]
          else []
        else if matchType = "case-conflict" then
          [{ filename := remotePath, status := "case-conflict-only", additions := 0,
             deletions := 0, localContent := localContent,
             remoteContent := remoteContent, sha := "",
             remoteSha := some remoteFile.sha, matchType := some matchType,
             localPath := some localFile.path }]
        else []
      else if matchType = "case-conflict" then
        let remoteContent := jsOrEmpty remoteFile.content
        [{ filename := remotePath, status := "case-conflict-only", additions := 0,
           deletions := 0, localContent := localContent,
           remoteContent := remoteContent, sha := "",
           remoteSha := some remoteFile.sha, matchType := some matchType,
           localPath := some localFile.path }]
      else []

/-- Embedding of checkForRemoteChanges: sweep every remote entry not
already covered by a git change. -/
def checkForRemoteChanges (vault : List LocalFile)
    (remoteTree : List (String × RemoteFile)) (gitChanges : List GitChange) :
    List SyncDiff :=
  let gitChangedFiles := gitChanges.map (·.file)
  remoteTree.flatMap (processRemoteEntry vault gitChangedFiles)

/-- Embedding of the pure reconciliation core of fetchDiffs: the early
return on an empty change list, then the remote sweep followed by the
locally flagged pass, appended in the order the code pushes them. -/
def fetchDiffs (vault : List LocalFile) (remoteTree : List (String × RemoteFile))
    (gitChanges : List GitChange) : List SyncDiff :=
  if gitChanges.isEmpty then []
  else
    checkForRemoteChanges vault remoteTree gitChanges ++
      gitChanges.flatMap (processGitChange vault remoteTree)

/- ## Push classification (performPush, src/main.ts lines 649 to 713) -/

/-- A blob entry queued for the new tree. -/
structure FileBlob where
  path : String
  sha : String
  mode : String
deriving DecidableEq, Repr

/-- One iteration of the diff loop of performPush: deletion statuses are
queued only when the path is still present in the push-time remote tree,
otherwise they are skipped; other statuses create a blob, whose failure
aborts the batch.  The accumulator is (deletions, fileBlobs,
processedFiles). -/
def performPushLoop (remoteFilesSet : List String) (createBlob : String → Option String) :
    List SyncDiff → List String × List FileBlob × List String →
    Option (List String × List FileBlob × List String)
  | [], acc => some acc
  | diff :: rest, (dels, blobs, processed) =>
    if diff.status = "remote-only" ∨ diff.status = "remote-added" then
      let dels := if remoteFilesSet.contains diff.filename then dels ++ [diff.filename] else dels
      performPushLoop remoteFilesSet createBlob rest (dels, blobs, processed ++ [diff.filename])
    else
      match createBlob diff.localContent with
      | some blobSha =>
        performPushLoop remoteFilesSet createBlob rest
          (dels, blobs ++ [{ path := diff.filename, sha := blobSha, mode := "100644" }],
           processed ++ [diff.filename])
      | none => none

/-- Embedding of the classification phase of performPush: which paths are
queued as deletions, which get blobs, and which are reported processed.
createBlob models the remote blob creation, none meaning failure. -/
def performPushClassify (remoteFilesSet : List String)
    (createBlob : String → Option String) (diffs : List SyncDiff) :
    Option (List String × List FileBlob × List String) :=
  performPushLoop remoteFilesSet createBlob diffs ([], [], [])

/- ## Remote tree fetch (fetchRemoteTree, src/main.ts lines 1567 to 1632) -/

/-- One entry of the recursive tree listing returned by the trees API. -/
structure TreeItem where
  path : String
  sha : String
  type : String
deriving DecidableEq, Repr

/-- The distinguishable outcomes of the trees API request. -/
inductive TreeResponse where
  | ok (items : List TreeItem)
  | authFailure
  | notFound
  | apiError (code : Nat) (text : String)
deriving DecidableEq, Repr

/-- The body of the try block of fetchRemoteTree: builds the snapshot for
markdown blobs, attaching fetched content (empty string when the blob
fetch fails, which fetchFileContentByBlob never escalates), throws on a
401 response, and treats 404 as an empty remote. -/
def fetchRemoteTreeInner (blobFetch : String → Option String) (resp : TreeResponse) :
    Except String (List (String × RemoteFile)) :=
  match resp with
  | .ok items =>
    .ok ((items.filter (fun it => it.type == "blob" && strEndsWith it.path ".md")).map
      (fun it => (it.path, { sha := it.sha, content := some ((blobFetch it.sha).getD "") })))
  | .authFailure => .error "Invalid token - authentication failed"
  | .notFound => .ok []
  | .apiError code text => .error ("GitHub API error: " ++ Nat.repr code ++ " " ++ text)

/-- Embedding of fetchRemoteTree as observed by its callers: the whole
try block sits inside a catch that logs the failure and returns the tree
built so far, which is still empty at every throw site. -/
def fetchRemoteTree (blobFetch : String → Option String) (resp : TreeResponse) :
    List (String × RemoteFile) :=
  match fetchRemoteTreeInner blobFetch resp with
  | .ok t => t
  | .error _ => []

/- ## Commit message (generateCommitMessage, src/main.ts lines 1018 to 1027) -/

/-- deviceName && deviceName.trim() converts to true: a present, nonempty,
non-blank device label. -/
def deviceNameTruthy (deviceName : Option String) : Bool :=
  match deviceName with
  | some dn => dn != "" && jsTrim dn != ""
  | none => false

/-- Embedding of generateCommitMessage: the label-prefixed or plain sync
message with singular suffix exactly for one file. -/
def generateCommitMessage (deviceName : Option String) (processedFiles : List String) :
    String :=
  let fileCount := processedFiles.length
  if deviceNameTruthy deviceName then
    "sync: " ++ deviceName.getD "" ++ " updated " ++ Nat.repr fileCount ++ " file" ++
      (if fileCount = 1 then "" else "s")
  else
    "sync: updated " ++ Nat.repr fileCount ++ " file" ++
      (if fileCount = 1 then "" else "s")

/- ## Conflict path (generateConflictPath, src/main.ts lines 817 to 828) -/

/-- now.toISOString().replace of colons and dots by dashes. -/
def isoTimestamp (now : String) : String :=
  String.mk (now.toList.map (fun c => if c = ':' ∨ c = '.' then '-' else c))

/-- path.lastIndexOf(dot): index of the last occurrence, none when the
character does not occur. -/
def lastIndexOf (c : Char) : List Char → Option Nat
  | [] => none
  | x :: xs =>
    match lastIndexOf c xs with
    | some i => some (i + 1)
    | none => if x = c then some 0 else none

/-- Embedding of generateConflictPath, with the current time passed in as
the ISO string the code derives the timestamp from. -/
def generateConflictPath (now : String) (originalPath : String) (conflictType : String) :
    String :=
  let timestamp := isoTimestamp now
  let cs := originalPath.toList
  match lastIndexOf '.' cs with
  | none => originalPath ++ "-" ++ conflictType ++ "-" ++ timestamp
  | some i =>
    let nameWithoutExt := String.mk (cs.take i)
    let ext := String.mk (cs.drop i)
    nameWithoutExt ++ "-" ++ conflictType ++ "-" ++ timestamp ++ ext

/- ## Concrete scenarios referenced by the claim theorems -/

/-- C1 scenario: local Note.md is flagged modified while the remote
snapshot carries note.md with the same content. -/
def c1Vault : List LocalFile := [{ path := "Note.md", content := "x\n" }]

/-- C1 scenario remote snapshot. -/
def c1Tree : List (String × RemoteFile) :=
  [("note.md", { sha := calculateContentHash "x\n", content := some "x\n" })]

/-- C1 scenario change list. -/
def c1Changes : List GitChange := [{ file := "Note.md", status := "M" }]

/-- C2 witness scenario: CRLF locally, LF remotely, same text. -/
def c2Vault : List LocalFile := [{ path := "a.md", content := "a\r\nb" }]

/-- C2 witness scenario remote snapshot; the stored sha differs from the
local content hash, so comparison falls through to content. -/
def c2Tree : List (String × RemoteFile) :=
  [("a.md", { sha := "h", content := some "a\nb" })]

/-- C2 witness scenario change list. -/
def c2Changes : List GitChange := [{ file := "a.md", status := "M" }]

/-- C3 scenario: the remote sweep compares a three-line local text with a
one-line remote text. -/
def c3Vault : List LocalFile := [{ path := "a.md", content := "a\nb\nc" }]

/-- C3 scenario remote snapshot. -/
def c3Tree : List (String × RemoteFile) :=
  [("a.md", { sha := "h", content := some "a" })]

/-- C3 scenario change list: an unrelated path keeps the pass alive. -/
def c3Changes : List GitChange := [{ file := "z.md", status := "M" }]

/-- C4 scenario: Note.md locally, note.md remotely, identical content,
not flagged by the oracle; an unrelated flagged file that is in sync. -/
def c4Vault : List LocalFile :=
  [{ path := "Note.md", content := "hello\n" }, { path := "Other.md", content := "x" }]

/-- C4 scenario remote snapshot. -/
def c4Tree : List (String × RemoteFile) :=
  [("note.md", { sha := calculateContentHash "hello\n", content := some "hello\n" }),
   ("Other.md", { sha := calculateContentHash "x", content := some "x" })]

/-- C4 scenario change list. -/
def c4Changes : List GitChange := [{ file := "Other.md", status := "M" }]

/-- C4 counterexample vault: exactly the scenario of the claim, local
Note.md only. -/
def c4LoneVault : List LocalFile := [{ path := "Note.md", content := "hello\n" }]

/-- C4 counterexample remote snapshot: note.md with the same content. -/
def c4LoneTree : List (String × RemoteFile) :=
  [("note.md", { sha := calculateContentHash "hello\n", content := some "hello\n" })]

/-- C9 scenario: an exact-path remote modification. -/
def c9Vault : List LocalFile := [{ path := "a.md", content := "x\n" }]

/-- C9 scenario remote snapshot. -/
def c9Tree : List (String × RemoteFile) :=
  [("a.md", { sha := "zzz", content := some "y\n" })]

/-- C9 scenario change list. -/
def c9Changes : List GitChange := [{ file := "b.md", status := "M" }]

/-- The single diff the C9 scenario emits. -/
def c9Diff : SyncDiff :=
  { filename := "a.md", status := "remote-modified", additions := 1, deletions := 0,
    localContent := "x\n", remoteContent := "y\n", sha := "", remoteSha := some "zzz",
    matchType := some "exact", localPath := some "a.md" }

/-- C6 witness batch: one remote-only diff still present remotely, one
already removed remotely, and one added diff. -/
def c6Diffs : List SyncDiff :=
  [{ filename := "a.md", status := "remote-only", additions := 0, deletions := 1,
     localContent := "", remoteContent := "x", sha := "", remoteSha := none,
     matchType := none, localPath := none },
   { filename := "gone.md", status := "remote-only", additions := 0, deletions := 1,
     localContent := "", remoteContent := "y", sha := "", remoteSha := none,
     matchType := none, localPath := none },
   { filename := "new.md", status := "added", additions := 1, deletions := 0,
     localContent := "hi", remoteContent := "", sha := "", remoteSha := none,
     matchType := none, localPath := none }]

/- ## Theorems -/

/-- C5: the code does not return the canonical remote blob hash for every
content string.  At the single character e-acute the byte length of the
UTF-8 encoding is 2 while the code builds the header from the UTF-16
length 1, so calculateContentHash disagrees with the canonical digest of
"blob " + byteLength + NUL + content. -/
theorem c5_hash_header_uses_utf16_length :
    jsStrLength "é" = 1 ∧ (utf8Bytes "é").length = 2 ∧
    calculateContentHash "é" ≠ gitBlobHash "é" :=
  ⟨by decide, by decide, by decide⟩

/-- C7: an authentication failure during the remote tree fetch is not
surfaced: the 401 throw inside fetchRemoteTree is swallowed by the
catch-all of the same function, which returns the empty snapshot built so
far, and against an empty snapshot a locally flagged file is reported as
a fresh addition. -/
theorem c7_auth_failure_degrades_to_empty_snapshot :
    fetchRemoteTreeInner (fun _ => none) TreeResponse.authFailure =
      Except.error "Invalid token - authentication failed" ∧
    fetchRemoteTree (fun _ => none) TreeResponse.authFailure = [] ∧
    fetchDiffs [{ path := "a.md", content := "x\n" }]
        (fetchRemoteTree (fun _ => none) TreeResponse.authFailure)
        [{ file := "a.md", status := "M" }] =
      [{ filename := "a.md", status := "added", additions := 2, deletions := 0,
         localContent := "x\n", remoteContent := "", sha := "", remoteSha := none,
         matchType := none, localPath := none }] :=
  ⟨rfl, rfl, by decide⟩

/-- C8: the commit message is the sync prefix, the device label and a
space when the label is non-blank, then updated n file with a plural s
exactly when n is not 1; the two examples of the spec evaluate as
stated. -/
theorem c8_commit_message_format :
    (∀ (label : String) (files : List String),
      (jsTrim label ≠ "" →
        generateCommitMessage (some label) files =
          "sync: " ++ label ++ " updated " ++ Nat.repr files.length ++ " file" ++
            (if files.length = 1 then "" else "s")) ∧
      (jsTrim label = "" →
        generateCommitMessage (some label) files =
          "sync: updated " ++ Nat.repr files.length ++ " file" ++
            (if files.length = 1 then "" else "s"))) ∧
    (∀ files : List String,
      generateCommitMessage none files =
        "sync: updated " ++ Nat.repr files.length ++ " file" ++
          (if files.length = 1 then "" else "s")) ∧
    generateCommitMessage (some "laptop") ["a", "b", "c"] = "sync: laptop updated 3 files" ∧
    generateCommitMessage (some "") ["a"] = "sync: updated 1 file" := by
  refine ⟨fun label files => ⟨fun htrim => ?_, fun htrim => ?_⟩, fun files => rfl, by decide, by decide⟩
  · have hlabel : label ≠ "" := by
      intro h
      apply htrim
      rw [h]
      decide
    simp [generateCommitMessage, deviceNameTruthy, bne_iff_ne, hlabel, htrim]
  · simp [generateCommitMessage, deviceNameTruthy, bne_iff_ne, htrim]

/-- Witness for C8 at the two example inputs of the spec. -/
theorem c8_commit_message_format_witness :
    generateCommitMessage (some "laptop") ["a", "b", "c"] = "sync: laptop updated 3 files" ∧
    generateCommitMessage (some "") ["a"] = "sync: updated 1 file" :=
  ⟨((c8_commit_message_format.1 "laptop" ["a", "b", "c"]).1 (by decide)).trans (by decide),
   ((c8_commit_message_format.1 "" ["a"]).2 (by decide)).trans (by decide)⟩

/-- The lastIndexOf probe succeeds exactly when the character occurs. -/
theorem lastIndexOf_isSome (c : Char) (l : List Char) :
    (lastIndexOf c l).isSome ↔ c ∈ l := by
  induction l with
  | nil => simp [lastIndexOf]
  | cons x xs ih =>
    rw [lastIndexOf]
    cases h : lastIndexOf c xs with
    | some i =>
      constructor
      · intro _
        exact List.mem_cons_of_mem x (ih.mp (by rw [h]; rfl))
      · intro _
        rfl
    | none =>
      have hxs : c ∉ xs := fun hm => by
        have hs := ih.mpr hm
        rw [h] at hs
        exact absurd hs (by decide)
      by_cases hx : x = c
      · simp [hx]
      · rw [if_neg hx]
        constructor
        · intro hs
          exact absurd hs (by decide)
        · intro hm
          exfalso
          rcases List.mem_cons.mp hm with rfl | hm2
          · exact hx rfl
          · exact hxs hm2

/-- C10: generateConflictPath inserts the dash, conflict type, dash and
timestamp just before the last dot when the path contains one, so the
result still ends with the original extension, and appends the suffix at
the end when the path has no dot. -/
theorem c10_conflict_path_keeps_extension (now path ct : String) :
    ((lastIndexOf '.' path.toList).isSome ↔ '.' ∈ path.toList) ∧
    (∀ i, lastIndexOf '.' path.toList = some i →
      generateConflictPath now path ct =
        String.mk (path.toList.take i) ++ "-" ++ ct ++ "-" ++ isoTimestamp now ++
          String.mk (path.toList.drop i) ∧
      ∃ pre, generateConflictPath now path ct = pre ++ String.mk (path.toList.drop i)) ∧
    (lastIndexOf '.' path.toList = none →
      generateConflictPath now path ct = path ++ "-" ++ ct ++ "-" ++ isoTimestamp now) := by
  refine ⟨lastIndexOf_isSome '.' path.toList, fun i hi => ?_, fun hn => ?_⟩
  · constructor
    · simp only [generateConflictPath, hi]
    · refine ⟨String.mk (path.toList.take i) ++ "-" ++ ct ++ "-" ++ isoTimestamp now, ?_⟩
      simp only [generateConflictPath, hi]
  · simp only [generateConflictPath, hn]

/-- Witness for C10 at a dotted and a dotless path. -/
theorem c10_conflict_path_keeps_extension_witness :
    (generateConflictPath "2024-01-02T03:04:05.678Z" "note.md" "remote" =
      String.mk ("note.md".toList.take 4) ++ "-" ++ "remote" ++ "-" ++
        isoTimestamp "2024-01-02T03:04:05.678Z" ++ String.mk ("note.md".toList.drop 4)) ∧
    (generateConflictPath "2024-01-02T03:04:05.678Z" "README" "local" =
      "README" ++ "-" ++ "local" ++ "-" ++ isoTimestamp "2024-01-02T03:04:05.678Z") :=
  ⟨(((c10_conflict_path_keeps_extension "2024-01-02T03:04:05.678Z" "note.md" "remote").2.1
      4 (by decide)).1),
   ((c10_conflict_path_keeps_extension "2024-01-02T03:04:05.678Z" "README" "local").2.2
      (by decide))⟩

/-- C3 counterexample: the remote sweep emits a remote-modified diff for
a three-line local text against a one-line remote text with additions 0
and deletions 2, while the positional rule of the spec yields additions
2 and deletions 0. -/
theorem c3_counterexample :
    fetchDiffs c3Vault c3Tree c3Changes =
      [{ filename := "a.md", status := "remote-modified", additions := 0, deletions := 2,
         localContent := "a\nb\nc", remoteContent := "a", sha := "",
         remoteSha := some "h", matchType := some "exact", localPath := some "a.md" }] ∧
    specLineCounts (splitLinesJs (normalizeEOL "a\nb\nc")) (splitLinesJs (normalizeEOL "a")) =
      (2, 0) :=
  ⟨by decide, by decide⟩

/-- C3 amended: the count loop of Pass A follows the positional rule of
the spec, while the count loop of Pass B applies that rule with the local
and remote texts exchanged, so surplus local lines count as deletions and
surplus remote lines as additions there. -/
theorem c3_linecount_rules (localLines remoteLines : List String) :
    fetchDiffsCounts localLines remoteLines = specLineCounts localLines remoteLines ∧
    checkForRemoteChangesCounts localLines remoteLines = specLineCounts remoteLines localLines := by
  constructor
  · rfl
  · unfold checkForRemoteChangesCounts specLineCounts
    rw [Nat.max_comm remoteLines.length localLines.length]
    congr 1
    funext ad i
    by_cases h1 : localLines.length ≤ i <;> by_cases h2 : remoteLines.length ≤ i <;>
      simp [h1, h2, ne_comm]

/-- Characterization of the performPush diff loop: when every blob
creation succeeds the loop succeeds, the queued deletions are exactly the
deletion-status diffs whose path is still in the push-time remote tree,
and every diff is reported processed. -/
theorem performPushLoop_spec (remoteFilesSet : List String)
    (createBlob : String → Option String) (diffs : List SyncDiff) :
    ∀ acc : List String × List FileBlob × List String,
      (∀ d ∈ diffs, ¬(d.status = "remote-only" ∨ d.status = "remote-added") →
        (createBlob d.localContent).isSome) →
      ∃ blobs, performPushLoop remoteFilesSet createBlob diffs acc =
        some (acc.1 ++ (diffs.filter (fun d =>
                decide (d.status = "remote-only" ∨ d.status = "remote-added") &&
                  remoteFilesSet.contains d.filename)).map SyncDiff.filename,
              acc.2.1 ++ blobs,
              acc.2.2 ++ diffs.map SyncDiff.filename) := by
  induction diffs with
  | nil =>
    intro acc _
    exact ⟨[], by simp [performPushLoop]⟩
  | cons diff rest ih =>
    intro acc h
    obtain ⟨dels, blobs0, processed⟩ := acc
    have hrest : ∀ d ∈ rest, ¬(d.status = "remote-only" ∨ d.status = "remote-added") →
        (createBlob d.localContent).isSome :=
      fun d hd => h d (List.mem_cons_of_mem _ hd)
    by_cases hdel : diff.status = "remote-only" ∨ diff.status = "remote-added"
    · by_cases hc : remoteFilesSet.contains diff.filename = true
      · obtain ⟨blobs, hb⟩ :=
          ih (dels ++ [diff.filename], blobs0, processed ++ [diff.filename]) hrest
        refine ⟨blobs, ?_⟩
        rw [performPushLoop, if_pos hdel]
        show performPushLoop remoteFilesSet createBlob rest
          ((if remoteFilesSet.contains diff.filename = true
            then dels ++ [diff.filename] else dels), blobs0,
           processed ++ [diff.filename]) = _
        rw [if_pos hc, hb]
        have hpd : (decide (diff.status = "remote-only" ∨ diff.status = "remote-added") &&
            remoteFilesSet.contains diff.filename) = true := by
          rw [decide_eq_true hdel, hc]
          rfl
        rw [List.filter_cons, if_pos hpd]
        simp only [List.map_cons, List.append_assoc, List.singleton_append]
      · obtain ⟨blobs, hb⟩ := ih (dels, blobs0, processed ++ [diff.filename]) hrest
        refine ⟨blobs, ?_⟩
        rw [performPushLoop, if_pos hdel]
        show performPushLoop remoteFilesSet createBlob rest
          ((if remoteFilesSet.contains diff.filename = true
            then dels ++ [diff.filename] else dels), blobs0,
           processed ++ [diff.filename]) = _
        rw [if_neg hc, hb]
        have hpd : ¬((decide (diff.status = "remote-only" ∨ diff.status = "remote-added") &&
            remoteFilesSet.contains diff.filename) = true) := by
          intro habs
          exact hc ((Bool.and_eq_true _ _).mp habs).2
        rw [List.filter_cons, if_neg hpd]
        simp only [List.map_cons, List.append_assoc, List.singleton_append]
    · have hbs := h diff (List.mem_cons_self diff rest) hdel
      obtain ⟨blobSha, hsha⟩ := Option.isSome_iff_exists.mp hbs
      obtain ⟨blobs, hb⟩ :=
        ih (dels, blobs0 ++ [{ path := diff.filename, sha := blobSha, mode := "100644" }],
            processed ++ [diff.filename]) hrest
      refine ⟨{ path := diff.filename, sha := blobSha, mode := "100644" } :: blobs, ?_⟩
      rw [performPushLoop, if_neg hdel, hsha]
      show performPushLoop remoteFilesSet createBlob rest
        (dels, blobs0 ++ [{ path := diff.filename, sha := blobSha, mode := "100644" }],
         processed ++ [diff.filename]) = _
      rw [hb]
      have hpd : ¬((decide (diff.status = "remote-only" ∨ diff.status = "remote-added") &&
          remoteFilesSet.contains diff.filename) = true) := by
        intro habs
        exact hdel (of_decide_eq_true ((Bool.and_eq_true _ _).mp habs).1)
      rw [List.filter_cons, if_neg hpd]
      simp only [List.map_cons, List.append_assoc, List.singleton_append]

/-- C6: a remote-only diff is queued as a deletion exactly when its path
is still present in the remote tree fetched at push time; a remote-only
diff whose path is already gone remotely is skipped without failing the
batch, and every diff of the batch is still reported processed. -/
theorem c6_deletion_safety (remoteFilesSet : List String)
    (createBlob : String → Option String) (diffs : List SyncDiff)
    (h : ∀ d ∈ diffs, ¬(d.status = "remote-only" ∨ d.status = "remote-added") →
      (createBlob d.localContent).isSome) :
    ∃ dels blobs processed,
      performPushClassify remoteFilesSet createBlob diffs = some (dels, blobs, processed) ∧
      (∀ d ∈ diffs, d.status = "remote-only" →
        (d.filename ∈ dels ↔ remoteFilesSet.contains d.filename = true)) ∧
      processed = diffs.map SyncDiff.filename := by
  obtain ⟨blobs, hb⟩ := performPushLoop_spec remoteFilesSet createBlob diffs ([], [], []) h
  refine ⟨(diffs.filter (fun d =>
      decide (d.status = "remote-only" ∨ d.status = "remote-added") &&
        remoteFilesSet.contains d.filename)).map SyncDiff.filename,
    blobs, diffs.map SyncDiff.filename, ?_, ?_, rfl⟩
  · simpa using hb
  · intro d hd hro
    constructor
    · intro hmem
      obtain ⟨d2, hd2, he⟩ := List.mem_map.mp hmem
      have hf := List.of_mem_filter hd2
      have hc := (Bool.and_eq_true _ _).mp hf |>.2
      rw [← he]
      exact hc
    · intro hc
      apply List.mem_map.mpr
      refine ⟨d, List.mem_filter.mpr ⟨hd, ?_⟩, rfl⟩
      have : decide (d.status = "remote-only" ∨ d.status = "remote-added") = true :=
        decide_eq_true (Or.inl hro)
      rw [this, hc]
      rfl

/-- Witness for C6 on the concrete three-diff batch c6Diffs with a blob
creator that always succeeds. -/
theorem c6_deletion_safety_witness :
    ∃ dels blobs processed,
      performPushClassify ["a.md"] (fun s => some ("b-" ++ s)) c6Diffs =
        some (dels, blobs, processed) ∧
      (∀ d ∈ c6Diffs, d.status = "remote-only" →
        (d.filename ∈ dels ↔ ["a.md"].contains d.filename = true)) ∧
      processed = c6Diffs.map SyncDiff.filename :=
  c6_deletion_safety ["a.md"] (fun s => some ("b-" ++ s)) c6Diffs (by decide)

/-- In a list whose keys are distinct, find? by key equality returns
exactly the member carrying that key. -/
theorem find_by_key_unique {α : Type} (key : α → String) (l : List α) (a : α) (q : String)
    (hnd : (l.map key).Nodup) (ha : a ∈ l) (hq : key a = q) :
    l.find? (fun x => key x == q) = some a := by
  induction l with
  | nil => exact absurd ha (List.not_mem_nil a)
  | cons b t ih =>
    rw [List.map_cons, List.nodup_cons] at hnd
    rcases List.mem_cons.mp ha with rfl | hmem
    · simp [List.find?, hq]
    · have hne : (key b == q) = false := by
        apply beq_eq_false_iff_ne.mpr
        intro he
        apply hnd.1
        rw [he, ← hq]
        exact List.mem_map_of_mem key hmem
      simp only [List.find?, hne]
      exact ih hnd.2 hmem

/-- A vault with distinct paths resolves getAbstractFileByPath to the
member with that path. -/
theorem getAbstractFileByPath_eq (vault : List LocalFile) (lf : LocalFile)
    (hnd : (vault.map LocalFile.path).Nodup) (hm : lf ∈ vault) :
    getAbstractFileByPath vault lf.path = some lf :=
  find_by_key_unique LocalFile.path vault lf lf.path hnd hm rfl

/-- A vault with distinct paths resolves the exact-match map to the
member with that path. -/
theorem exactLookup_eq (vault : List LocalFile) (lf : LocalFile)
    (hnd : (vault.map LocalFile.path).Nodup) (hm : lf ∈ vault) :
    exactLookup vault lf.path = some lf := by
  apply find_by_key_unique LocalFile.path vault.reverse lf lf.path ?_ ?_ rfl
  · rw [List.map_reverse]
    exact List.nodup_reverse.mpr hnd
  · exact List.mem_reverse.mpr hm

/-- A snapshot with distinct keys resolves treeGet to the entry with
that path. -/
theorem treeGet_eq (tree : List (String × RemoteFile)) (p : String) (rf : RemoteFile)
    (hnd : (tree.map Prod.fst).Nodup) (hm : (p, rf) ∈ tree) :
    treeGet tree p = some rf := by
  unfold treeGet
  rw [find_by_key_unique Prod.fst tree (p, rf) p hnd hm rfl]
  rfl

/-- A successful exact lookup returns a file at exactly the queried
path. -/
theorem exactLookup_path (vault : List LocalFile) (p : String) (f : LocalFile)
    (h : exactLookup vault p = some f) : f.path = p := by
  unfold exactLookup at h
  have hp := List.find?_some h
  exact eq_of_beq hp

/-- A successful case-insensitive lookup returns a file whose lowered
path equals the lowered query. -/
theorem ciLookup_lower (vault : List LocalFile) (p : String) (f : LocalFile)
    (h : ciLookup vault p = some f) : toLowerStr f.path = toLowerStr p := by
  unfold ciLookup at h
  have hp := List.find?_some h
  exact eq_of_beq hp

/-- What a successful local-match resolution guarantees: an exact match
carries the remote path itself, a case-conflict match carries a path
that differs from the remote path but agrees with it after lowering. -/
theorem resolveLocalMatch_spec (vault : List LocalFile) (p : String) (f : LocalFile)
    (mt : String) (h : resolveLocalMatch vault p = some (f, mt)) :
    (mt = "exact" ∧ f.path = p) ∨
    (mt = "case-conflict" ∧ f.path ≠ p ∧ toLowerStr f.path = toLowerStr p) := by
  unfold resolveLocalMatch at h
  split at h
  · rename_i g heq
    injection h with h2
    injection h2 with hf hmt
    subst hf
    subst hmt
    exact Or.inl ⟨rfl, exactLookup_path vault p g heq⟩
  · split at h
    · rename_i g heq
      split at h
      · rename_i hne
        injection h with h2
        injection h2 with hf hmt
        subst hf
        subst hmt
        exact Or.inr ⟨rfl, hne, ciLookup_lower vault p g heq⟩
      · exact absurd h (by simp)
    · exact absurd h (by simp)

/-- Each git-change iteration yields at most one diff. -/
theorem processGitChange_len (v : List LocalFile) (rt : List (String × RemoteFile))
    (gc : GitChange) : (processGitChange v rt gc).length ≤ 1 := by
  simp only [processGitChange]
  repeat' split
  all_goals simp

/-- Each remote-entry iteration yields at most one diff. -/
theorem processRemoteEntry_len (v : List LocalFile) (gcf : List String)
    (e : String × RemoteFile) : (processRemoteEntry v gcf e).length ≤ 1 := by
  simp only [processRemoteEntry]
  repeat' split
  all_goals simp

/-- Facts about every diff emitted by one git-change iteration: named
after the flagged file, no observed local path, no match type, one of
the three Pass A statuses, and for modified diffs the stored contents
really differ after normalization. -/
theorem processGitChange_mem (v : List LocalFile) (rt : List (String × RemoteFile))
    (gc : GitChange) (d : SyncDiff) (h : d ∈ processGitChange v rt gc) :
    d.filename = gc.file ∧ d.localPath = none ∧ d.matchType = none ∧
    (d.status = "remote-only" ∨ d.status = "added" ∨ d.status = "modified") ∧
    (d.status = "modified" → normalizeEOL d.localContent ≠ normalizeEOL d.remoteContent) := by
  simp only [processGitChange] at h
  repeat' split at h
  all_goals simp_all

/-- Facts about every diff emitted by one remote-entry iteration: named
after the remote path, only for paths not flagged by the oracle, one of
the three Pass B statuses, remote-modified only with a real normalized
content difference, an observed local path exactly on remote-modified
and case-conflict-only diffs, a case-conflict match type only with a
local path that differs in case from the remote path, and an exact match
type only with the local path equal to the remote path. -/
theorem processRemoteEntry_mem (v : List LocalFile) (gcf : List String)
    (e : String × RemoteFile) (d : SyncDiff) (h : d ∈ processRemoteEntry v gcf e) :
    d.filename = e.1 ∧ gcf.contains e.1 = false ∧
    (d.status = "remote-only" ∨ d.status = "remote-modified" ∨
      d.status = "case-conflict-only") ∧
    (d.status = "remote-modified" →
      normalizeEOL d.localContent ≠ normalizeEOL d.remoteContent) ∧
    (d.localPath.isSome ↔
      (d.status = "remote-modified" ∨ d.status = "case-conflict-only")) ∧
    (d.matchType = some "case-conflict" →
      ∃ q, d.localPath = some q ∧ q ≠ d.filename ∧
        toLowerStr q = toLowerStr d.filename) ∧
    (d.matchType = some "exact" → d.localPath = some d.filename) := by
  simp only [processRemoteEntry] at h
  split at h
  · exact absurd h (by simp)
  · rename_i hgc
    have hgc2 : gcf.contains e.1 = false := by
      revert hgc
      cases gcf.contains e.1 <;> simp
    split at h
    · exact absurd h (by simp)
    · split at h
      · -- no local match: remote-only
        rw [List.mem_singleton] at h
        subst h
        refine ⟨rfl, hgc2, Or.inl rfl, ?_, by simp, ?_, ?_⟩
        · intro hs
          exact ((by decide : ¬("remote-only" = "remote-modified")) hs).elim
        · intro hmt
          exact ((by decide : ¬((some "none" : Option String) = some "case-conflict")) hmt).elim
        · intro hmt
          exact ((by decide : ¬((some "none" : Option String) = some "exact")) hmt).elim
      · rename_i lf mt heq
        have hres := resolveLocalMatch_spec v e.1 lf mt heq
        split at h
        · -- hash mismatch path
          split at h
          · -- normalized contents differ
            rename_i hhash hnorm
            split at h
            · -- counts positive: remote-modified
              rw [List.mem_singleton] at h
              subst h
              refine ⟨rfl, hgc2, Or.inr (Or.inl rfl), fun _ => hnorm, by simp, ?_, ?_⟩
              · intro hmtcc
                injection hmtcc with hmtcc2
                subst hmtcc2
                rcases hres with ⟨habs, _⟩ | ⟨_, hne, hlow⟩
                · exact absurd habs (by decide)
                · exact ⟨lf.path, rfl, hne, hlow⟩
              · intro hmtex
                injection hmtex with hmtex2
                subst hmtex2
                rcases hres with ⟨_, hpath⟩ | ⟨habs, _, _⟩
                · exact congrArg some hpath
                · exact absurd habs (by decide)
            · exact absurd h (by simp)
          · -- normalized contents equal: possibly case-conflict-only
            split at h
            · rename_i hmt
              rw [List.mem_singleton] at h
              subst h
              refine ⟨rfl, hgc2, Or.inr (Or.inr rfl), ?_, by simp, ?_, ?_⟩
              · intro hs
                exact ((by decide : ¬("case-conflict-only" = "remote-modified")) hs).elim
              · intro _
                rcases hres with ⟨habs, _⟩ | ⟨_, hne, hlow⟩
                · rw [hmt] at habs
                  exact absurd habs (by decide)
                · exact ⟨lf.path, rfl, hne, hlow⟩
              · intro hmtex
                injection hmtex with hmtex2
                rw [hmtex2] at hmt
                exact absurd hmt (by decide)
            · exact absurd h (by simp)
        · -- hash match: possibly case-conflict-only
          split at h
          · rename_i hmt
            rw [List.mem_singleton] at h
            subst h
            refine ⟨rfl, hgc2, Or.inr (Or.inr rfl), ?_, by simp, ?_, ?_⟩
            · intro hs
              exact ((by decide : ¬("case-conflict-only" = "remote-modified")) hs).elim
            · intro _
              rcases hres with ⟨habs, _⟩ | ⟨_, hne, hlow⟩
              · rw [hmt] at habs
                exact absurd habs (by decide)
              · exact ⟨lf.path, rfl, hne, hlow⟩
            · intro hmtex
              injection hmtex with hmtex2
              rw [hmtex2] at hmt
              exact absurd hmt (by decide)
          · exact absurd h (by simp)

/-- Appending singleton-or-empty outputs keyed by distinct values keeps
the diff names distinct. -/
theorem flatMap_filename_nodup {α : Type} (key : α → String) (f : α → List SyncDiff)
    (hk : ∀ a, ∀ d ∈ f a, d.filename = key a)
    (hl : ∀ a, (f a).length ≤ 1) :
    ∀ l : List α, (l.map key).Nodup → ((l.flatMap f).map SyncDiff.filename).Nodup := by
  intro l
  induction l with
  | nil =>
    intro _
    simp
  | cons a t ih =>
    intro hnd
    rw [List.map_cons, List.nodup_cons] at hnd
    rw [List.flatMap_cons, List.map_append]
    apply List.Nodup.append
    · have h1 := hl a
      match hfa : f a with
      | [] => simp
      | [x] => simp
      | x :: y :: r =>
        rw [hfa] at h1
        simp at h1
    · exact ih hnd.2
    · intro s hs1 hs2
      obtain ⟨d1, hd1, he1⟩ := List.mem_map.mp hs1
      obtain ⟨d2, hd2, he2⟩ := List.mem_map.mp hs2
      obtain ⟨b, hb, hdb⟩ := List.mem_flatMap.mp hd2
      apply hnd.1
      have hkey : key a = key b := by
        rw [← hk a d1 hd1, he1, ← he2, hk b d2 hdb]
      rw [hkey]
      exact List.mem_map_of_mem key hb

/-- Every diff of a reconciliation pass comes from the remote sweep of
one snapshot entry or from one locally flagged change. -/
theorem fetchDiffs_mem (v : List LocalFile) (rt : List (String × RemoteFile))
    (gcs : List GitChange) (d : SyncDiff) (h : d ∈ fetchDiffs v rt gcs) :
    (∃ e ∈ rt, d ∈ processRemoteEntry v (gcs.map GitChange.file) e) ∨
    (∃ gc ∈ gcs, d ∈ processGitChange v rt gc) := by
  unfold fetchDiffs at h
  split at h
  · exact absurd h (by simp)
  · rw [List.mem_append] at h
    rcases h with h | h
    · unfold checkForRemoteChanges at h
      exact Or.inl (List.mem_flatMap.mp h)
    · exact Or.inr (List.mem_flatMap.mp h)

/-- C1 counterexample: a locally flagged Note.md and a remote note.md
with the same content produce two diffs in one pass, whose filenames are
distinct but equal under case-insensitive comparison, because the remote
sweep only skips remote paths that match a flagged path exactly. -/
theorem c1_counterexample :
    fetchDiffs c1Vault c1Tree c1Changes =
      [{ filename := "note.md", status := "case-conflict-only", additions := 0,
         deletions := 0, localContent := "x\n", remoteContent := "x\n", sha := "",
         remoteSha := some (calculateContentHash "x\n"),
         matchType := some "case-conflict", localPath := some "Note.md" },
       { filename := "Note.md", status := "added", additions := 2, deletions := 0,
         localContent := "x\n", remoteContent := "", sha := "", remoteSha := none,
         matchType := none, localPath := none }] ∧
    toLowerStr "note.md" = toLowerStr "Note.md" ∧ "note.md" ≠ "Note.md" :=
  ⟨by decide, by decide, by decide⟩

/-- C1 amended: with distinct flagged paths and distinct snapshot keys,
one reconciliation pass emits at most one Sync Diff per exact path (all
emitted filenames are pairwise distinct); uniqueness does not extend to
case-normalized paths. -/
theorem c1_per_exact_path_uniqueness (vault : List LocalFile)
    (remoteTree : List (String × RemoteFile)) (gitChanges : List GitChange)
    (hg : (gitChanges.map GitChange.file).Nodup)
    (hr : (remoteTree.map Prod.fst).Nodup) :
    ((fetchDiffs vault remoteTree gitChanges).map SyncDiff.filename).Nodup := by
  unfold fetchDiffs
  split
  · simp
  · unfold checkForRemoteChanges
    rw [List.map_append]
    apply List.Nodup.append
    · exact flatMap_filename_nodup Prod.fst _
        (fun e d hd => (processRemoteEntry_mem vault _ e d hd).1)
        (fun e => processRemoteEntry_len vault _ e) remoteTree hr
    · exact flatMap_filename_nodup GitChange.file _
        (fun gc d hd => (processGitChange_mem vault remoteTree gc d hd).1)
        (fun gc => processGitChange_len vault remoteTree gc) gitChanges hg
    · intro s hs1 hs2
      obtain ⟨d1, hd1, he1⟩ := List.mem_map.mp hs1
      obtain ⟨d2, hd2, he2⟩ := List.mem_map.mp hs2
      obtain ⟨e, _, hde⟩ := List.mem_flatMap.mp hd1
      obtain ⟨gc, hgc, hdg⟩ := List.mem_flatMap.mp hd2
      have h1 := processRemoteEntry_mem vault _ e d1 hde
      have h2 := processGitChange_mem vault remoteTree gc d2 hdg
      have hnotmem : e.1 ∉ gitChanges.map GitChange.file := by
        intro hmem2
        have hc : (gitChanges.map GitChange.file).contains e.1 = true :=
          List.elem_iff.mpr hmem2
        rw [h1.2.1] at hc
        exact absurd hc (by decide)
      apply hnotmem
      rw [← h1.1, he1, ← he2, h2.1]
      exact List.mem_map_of_mem GitChange.file hgc

/-- Witness for the amended C1 on the concrete C1 scenario. -/
theorem c1_per_exact_path_uniqueness_witness :
    ((fetchDiffs c1Vault c1Tree c1Changes).map SyncDiff.filename).Nodup :=
  c1_per_exact_path_uniqueness c1Vault c1Tree c1Changes (by decide) (by decide)

/-- C2: when a path carries an exact local file and a remote entry whose
contents agree after line-ending normalization (and the oracle does not
report the path as deleted, which would contradict its local presence),
the pass emits no diff at all for that path; moreover every modified or
remote-modified diff of any pass stores contents that really differ
after normalization, so a hash mismatch alone never produces one. -/
theorem c2_normalized_equal_no_diff (vault : List LocalFile)
    (remoteTree : List (String × RemoteFile)) (gitChanges : List GitChange)
    (p lc : String) (rf : RemoteFile) (rc : String)
    (hv : (vault.map LocalFile.path).Nodup)
    (hr : (remoteTree.map Prod.fst).Nodup)
    (hlf : ({ path := p, content := lc } : LocalFile) ∈ vault)
    (hrf : (p, rf) ∈ remoteTree)
    (hrc : rf.content = some rc)
    (heq : normalizeEOL lc = normalizeEOL rc)
    (hD : ∀ gc ∈ gitChanges, gc.file = p → gc.status ≠ "D") :
    (∀ d ∈ fetchDiffs vault remoteTree gitChanges, d.filename ≠ p) ∧
    (∀ d ∈ fetchDiffs vault remoteTree gitChanges,
      d.status = "modified" ∨ d.status = "remote-modified" →
      normalizeEOL d.localContent ≠ normalizeEOL d.remoteContent) := by
  have hexact : exactLookup vault p = some { path := p, content := lc } :=
    exactLookup_eq vault { path := p, content := lc } hv hlf
  have hga : getAbstractFileByPath vault p = some { path := p, content := lc } :=
    getAbstractFileByPath_eq vault { path := p, content := lc } hv hlf
  have htg : treeGet remoteTree p = some rf := treeGet_eq remoteTree p rf hr hrf
  have hresolve : resolveLocalMatch vault p = some ({ path := p, content := lc }, "exact") := by
    unfold resolveLocalMatch
    rw [hexact]
  have hnremote : normalizeEOL lc = normalizeEOL (jsOrEmpty rf.content) := by
    rw [hrc]
    exact heq
  constructor
  · intro d hd hdp
    rcases fetchDiffs_mem vault remoteTree gitChanges d hd with ⟨e, he, hde⟩ | ⟨gc, hgc, hdg⟩
    · have hm := processRemoteEntry_mem vault _ e d hde
      have hep : e.1 = p := by rw [← hm.1, hdp]
      have hefst : e.1 = (p, rf).1 := hep
      have he2 : e = (p, rf) := List.inj_on_of_nodup_map hr he hrf hefst
      rw [he2] at hde
      have hexcc : ¬("exact" = "case-conflict") := by decide
      have hempty : processRemoteEntry vault (gitChanges.map GitChange.file) (p, rf) = [] := by
        simp only [processRemoteEntry, hresolve]
        by_cases hgcc : (gitChanges.map GitChange.file).contains p = true
        · rw [if_pos hgcc]
        · rw [if_neg hgcc]
          by_cases hmd : (¬ strEndsWith p ".md" = true)
          · rw [if_pos hmd]
          · rw [if_neg hmd]
            by_cases hh : calculateContentHash lc ≠ rf.sha
            · rw [if_pos hh, if_neg (not_not_intro hnremote), if_neg hexcc]
            · rw [if_neg hh, if_neg hexcc]
      rw [hempty] at hde
      exact absurd hde (List.not_mem_nil d)
    · have hm := processGitChange_mem vault remoteTree gc d hdg
      have hgp : gc.file = p := by rw [← hm.1, hdp]
      have hempty : processGitChange vault remoteTree gc = [] := by
        simp only [processGitChange, hgp, hga, htg]
        by_cases hmd : (¬ strEndsWith p ".md" = true)
        · rw [if_pos hmd]
        · rw [if_neg hmd]
          rw [if_neg (hD gc hgc hgp)]
          by_cases hh : calculateContentHash lc = rf.sha
          · rw [if_pos hh]
          · rw [if_neg hh, if_pos hnremote]
      rw [hempty] at hdg
      exact absurd hdg (List.not_mem_nil d)
  · intro d hd hst
    rcases fetchDiffs_mem vault remoteTree gitChanges d hd with ⟨e, _, hde⟩ | ⟨gc, _, hdg⟩
    · have hm := processRemoteEntry_mem vault _ e d hde
      rcases hst with hmod | hrm
      · rcases hm.2.2.1 with h1 | h1 | h1 <;>
          (rw [hmod] at h1; exact absurd h1 (by decide))
      · exact hm.2.2.2.1 hrm
    · have hm := processGitChange_mem vault remoteTree gc d hdg
      rcases hst with hmod | hrm
      · exact hm.2.2.2.2 hmod
      · rcases hm.2.2.2.1 with h1 | h1 | h1 <;>
          (rw [hrm] at h1; exact absurd h1 (by decide))

/-- Witness for C2: CRLF locally versus LF remotely on a.md, stored
remote sha differing from the local hash, produces no diff. -/
theorem c2_normalized_equal_no_diff_witness :
    (∀ d ∈ fetchDiffs c2Vault c2Tree c2Changes, d.filename ≠ "a.md") ∧
    (∀ d ∈ fetchDiffs c2Vault c2Tree c2Changes,
      d.status = "modified" ∨ d.status = "remote-modified" →
      normalizeEOL d.localContent ≠ normalizeEOL d.remoteContent) :=
  c2_normalized_equal_no_diff c2Vault c2Tree c2Changes "a.md" "a\r\nb"
    { sha := "h", content := some "a\nb" } "a\nb"
    (by decide) (by decide) (by decide) (by decide) rfl (by decide) (by decide)

/-- C4 counterexample: in the scenario exactly as the claim states it
(local Note.md, remote note.md, identical content, and the Local Change
Oracle does not flag Note.md, hence reports nothing at all),
reconciliation yields zero Sync Diffs, not exactly one: fetchDiffs
returns the empty list outright when the change list is empty, before
the remote sweep ever runs. -/
theorem c4_counterexample :
    fetchDiffs c4LoneVault c4LoneTree [] = [] := by decide

/-- C4 amended: provided the oracle reports at least one change (so the
early return on an empty change list is not taken), the scenario of the
spec (local Note.md, remote note.md, same content, Note.md unflagged)
yields exactly one diff, of status case-conflict-only, with the
observed local path Note.md; and the resolution strategy always prefers
an exact-path match, consulting the case-insensitive map only when the
exact lookup fails. -/
theorem c4_case_precedence :
    fetchDiffs c4Vault c4Tree c4Changes =
      [{ filename := "note.md", status := "case-conflict-only", additions := 0,
         deletions := 0, localContent := "hello\n", remoteContent := "hello\n",
         sha := "", remoteSha := some (calculateContentHash "hello\n"),
         matchType := some "case-conflict", localPath := some "Note.md" }] ∧
    (∀ (vault : List LocalFile) (p : String) (f : LocalFile),
      exactLookup vault p = some f → resolveLocalMatch vault p = some (f, "exact")) := by
  constructor
  · decide
  · intro vault p f hf
    unfold resolveLocalMatch
    rw [hf]

/-- Witness for C4: the scenario evaluation together with the tie-break
applied to a one-file vault at its exact path. -/
theorem c4_case_precedence_witness :
    fetchDiffs c4Vault c4Tree c4Changes =
      [{ filename := "note.md", status := "case-conflict-only", additions := 0,
         deletions := 0, localContent := "hello\n", remoteContent := "hello\n",
         sha := "", remoteSha := some (calculateContentHash "hello\n"),
         matchType := some "case-conflict", localPath := some "Note.md" }] ∧
    resolveLocalMatch [{ path := "x.md", content := "c" }] "x.md" =
      some ({ path := "x.md", content := "c" }, "exact") :=
  ⟨c4_case_precedence.1,
   c4_case_precedence.2 [{ path := "x.md", content := "c" }] "x.md"
     { path := "x.md", content := "c" } (by decide)⟩

/-- C9 counterexample: an exact-path remote modification emits a diff
whose matchType is exact and whose observed local path field is
nevertheless set (to the same path), refuting that the field is set only
when matchType is case-conflict. -/
theorem c9_counterexample :
    fetchDiffs c9Vault c9Tree c9Changes = [c9Diff] ∧
    c9Diff.matchType = some "exact" ∧ c9Diff.localPath.isSome = true :=
  ⟨by decide, rfl, rfl⟩

/-- C9 amended: the observed local path is set exactly on the Pass B
diffs that found a local file, i.e. those of status remote-modified or
case-conflict-only; with matchType case-conflict it holds a path that
differs from the diff path but matches it case-insensitively, while with
matchType exact it equals the diff path; Pass A diffs carry neither
field. -/
theorem c9_localpath_rule (vault : List LocalFile)
    (remoteTree : List (String × RemoteFile)) (gitChanges : List GitChange) :
    ∀ d ∈ fetchDiffs vault remoteTree gitChanges,
      (d.localPath.isSome ↔
        (d.status = "remote-modified" ∨ d.status = "case-conflict-only")) ∧
      (d.matchType = some "case-conflict" →
        ∃ q, d.localPath = some q ∧ q ≠ d.filename ∧
          toLowerStr q = toLowerStr d.filename) ∧
      (d.matchType = some "exact" → d.localPath = some d.filename) := by
  intro d hd
  rcases fetchDiffs_mem vault remoteTree gitChanges d hd with ⟨e, _, hde⟩ | ⟨gc, _, hdg⟩
  · have hm := processRemoteEntry_mem vault _ e d hde
    exact ⟨hm.2.2.2.2.1, hm.2.2.2.2.2.1, hm.2.2.2.2.2.2⟩
  · have hm := processGitChange_mem vault remoteTree gc d hdg
    refine ⟨?_, ?_, ?_⟩
    · rw [hm.2.1]
      constructor
      · intro hs
        exact absurd hs (by decide)
      · intro hst
        rcases hm.2.2.2.1 with h1 | h1 | h1 <;>
          rcases hst with h2 | h2 <;> (rw [h2] at h1; exact absurd h1 (by decide))
    · intro hmt
      rw [hm.2.2.1] at hmt
      exact absurd hmt (by decide)
    · intro hmt
      rw [hm.2.2.1] at hmt
      exact absurd hmt (by decide)

/-- Witness for the amended C9 at the C9 scenario diff. -/
theorem c9_localpath_rule_witness :
    (c9Diff.localPath.isSome ↔
      (c9Diff.status = "remote-modified" ∨ c9Diff.status = "case-conflict-only")) ∧
    (c9Diff.matchType = some "case-conflict" →
      ∃ q, c9Diff.localPath = some q ∧ q ≠ c9Diff.filename ∧
        toLowerStr q = toLowerStr c9Diff.filename) ∧
    (c9Diff.matchType = some "exact" → c9Diff.localPath = some c9Diff.filename) :=
  c9_localpath_rule c9Vault c9Tree c9Changes c9Diff (by decide)

end Kolaba
